import Mathlib

/-!
Verification development for the `remirror` suggestion/autocomplete engine and
the mention extension.

The repository's `prosemirror-suggest` package only exposes its public
interface under `src/` (the implementation modules `suggest-plugin`,
`suggest-state`, `suggest-predicates`, `suggest-utils` and `suggest-types` are
re-exported but their sources are not part of the corpus).  Definitions for
that subsystem are therefore modelled from the specification (sections 3, 4.1
to 4.4 and 8 of the spec) and are marked `Modelled from the spec:` in their
doc comments.  The mention extension (`mention-extension.ts`) and the
extension decorator (`decorators.ts`) are present in the corpus and are
embedded directly from their sources.
-/

namespace Remirror

/-- Modelled from the spec: the `Reason` tagged value (spec section 3).  The
change family is `start`, `move`, `text`; the exit family is `exitEnd`
(spec "End"), `moveEnd`, `delete`, `selectionOutside`, `invalidSplit`,
`jumpForward` and `jumpBackward`.  The implementation's `ChangeReason` and
`ExitReason` enums live in `suggest-types.ts`, which is not in the corpus. -/
inductive Reason where
  | start
  | move
  | text
  | exitEnd
  | moveEnd
  | delete
  | selectionOutside
  | invalidSplit
  | jumpForward
  | jumpBackward
deriving DecidableEq, Repr

/-- Modelled from the spec: `isChangeReason` classifies a reason into the
Change family (Start, Move, Text).  The implementation lives in
`suggest-predicates.ts`, which is not in the corpus. -/
def isChangeReason : Reason → Bool
  | .start => true
  | .move => true
  | .text => true
  | _ => false

/-- Modelled from the spec: `isExitReason` classifies a reason into the Exit
family (End, MoveEnd, Delete, SelectionOutside, InvalidSplit, JumpForward,
JumpBackward). -/
def isExitReason : Reason → Bool
  | .exitEnd => true
  | .moveEnd => true
  | .delete => true
  | .selectionOutside => true
  | .invalidSplit => true
  | .jumpForward => true
  | .jumpBackward => true
  | _ => false

/-- Modelled from the spec: `isInvalidSplitReason` facet predicate. -/
def isInvalidSplitReason : Reason → Bool
  | .invalidSplit => true
  | _ => false

/-- Modelled from the spec: `isRemovedReason` facet predicate.  A "removed"
reason is the Delete exit reason (text deletion removed the match). -/
def isRemovedReason : Reason → Bool
  | .delete => true
  | _ => false

/-- Modelled from the spec: `isSplitReason` facet predicate.  In the spec's
reason taxonomy the only split-derived reason is InvalidSplit. -/
def isSplitReason : Reason → Bool
  | .invalidSplit => true
  | _ => false

/-- Modelled from the spec: `isSelectionExitReason` facet predicate. -/
def isSelectionExitReason : Reason → Bool
  | .selectionOutside => true
  | _ => false

/-- C6: `isChangeReason` and `isExitReason` are pure functions of the Reason
tag and partition the Reason type: for every reason exactly one of the two
predicates returns true, the change family being Start/Move/Text and the exit
family being the remaining seven reasons. -/
theorem reason_partition :
    ∀ r : Reason,
      (isChangeReason r = true ↔ isExitReason r = false) ∧
      (isChangeReason r = true ↔ (r = .start ∨ r = .move ∨ r = .text)) ∧
      (isExitReason r = true ↔
        (r = .exitEnd ∨ r = .moveEnd ∨ r = .delete ∨ r = .selectionOutside ∨
          r = .invalidSplit ∨ r = .jumpForward ∨ r = .jumpBackward)) := by
  intro r
  cases r <;> simp [isChangeReason, isExitReason]

/-- Modelled from the spec: the `MatchValue` pair of text variants — the
entire match (`full`) and the part up to the cursor (the source's `partial`
variant, called `upToCursor` here). -/
structure MatchValue where
  full : String
  upToCursor : String
deriving DecidableEq, Repr

/-- Modelled from the spec: a matched range — start and end character
offsets plus the cursor offset inside the range. -/
structure RangeWithCursor where
  fromPos : Nat
  toPos : Nat
  cursor : Nat
deriving DecidableEq, Repr

/-- Modelled from the spec: a computed `Match` for one suggester — the
suggester it belongs to, the matched range, the matched text (full/partial)
and the query text (match text minus the activation character). -/
structure SuggestMatch where
  name : String
  range : RangeWithCursor
  text : MatchValue
  query : MatchValue
deriving DecidableEq, Repr

/-- Modelled from the spec: the matcher-relevant configuration of a
suggester (spec section 4.2) — activation character, match offset (how many
characters after activation must exist before matching begins), start-of-line
restriction, the supported-character class for the query and the class of
characters permitted immediately before the activation character. -/
structure SuggesterConfig where
  name : String
  char : Char
  matchOffset : Nat
  startOfLine : Bool
  supportedCharacters : Char → Bool
  validPrefixCharacters : Option Char → Bool

/-- Modelled from the spec: the default supported-character class for query
text (word characters). -/
def defaultSupportedChar (c : Char) : Bool :=
  c.isAlphanum || c == '_'

/-- Modelled from the spec: the default class of characters permitted
immediately before the activation character (nothing, or whitespace). -/
def defaultValidBefore : Option Char → Bool
  | none => true
  | some c => c == ' ' || c == '\n'

/-- Modelled from the spec: the `DEFAULT_SUGGESTER` configuration for a given
name and activation character.  Its match offset is 0: per the spec's
scenario, a match may begin with zero characters after the activation
character, so typing the activation character alone already matches. -/
def defaultSuggesterConfig (name : String) (char : Char) : SuggesterConfig :=
  { name := name
    char := char
    matchOffset := 0
    startOfLine := false
    supportedCharacters := defaultSupportedChar
    validPrefixCharacters := defaultValidBefore }

/-- Checks whether position `i` in `text` is a valid activation point for a
match ending at `cursor`: the activation character sits at `i`, every
character strictly between `i` and the cursor is a supported query character,
the character immediately before `i` is a permitted prefix character, and the
start-of-line restriction (if any) holds. -/
def isActivationAt (cfg : SuggesterConfig) (text : List Char) (cursor i : Nat) : Bool :=
  (match text.get? i with
    | some ch => ch == cfg.char
    | none => false)
  && ((text.drop (i + 1)).take (cursor - (i + 1))).all cfg.supportedCharacters
  && cfg.validPrefixCharacters (if i == 0 then none else text.get? (i - 1))
  && (!cfg.startOfLine || i == 0 || text.get? (i - 1) == some '\n')

/-- The characters of `text` from offset `a` (inclusive) to `b` (exclusive),
as a string. -/
def sliceStr (text : List Char) (a b : Nat) : String :=
  String.mk ((text.drop a).take (b - a))

/-- Modelled from the spec: the Matcher (spec section 4.2).  Scans backward
from the cursor to the nearest valid activation point; the match is accepted
only when at least `matchOffset` query characters exist between the
activation character and the cursor.  The full variants extend over the
supported-character run beyond the cursor, the partial variants stop at the
cursor, and the query drops the activation character. -/
def findMatch (cfg : SuggesterConfig) (text : List Char) (cursor : Nat) :
    Option SuggestMatch :=
  match (List.range cursor).reverse.find? (isActivationAt cfg text cursor) with
  | none => none
  | some i =>
    if cursor - (i + 1) < cfg.matchOffset then none
    else
      let stop := cursor + ((text.drop cursor).takeWhile cfg.supportedCharacters).length
      some
        { name := cfg.name
          range := { fromPos := i, toPos := stop, cursor := cursor }
          text := { full := sliceStr text i stop, upToCursor := sliceStr text i cursor }
          query :=
            { full := sliceStr text (i + 1) stop
              upToCursor := sliceStr text (i + 1) cursor } }

/-- Modelled from the spec: the kind of change a transaction carried, as
seen by the reason classifier (spec section 4.3) — a pure selection change,
an ordinary document edit, a deletion, a split, or a discontinuous jump. -/
inductive EditKind where
  | selectionOnly
  | edit
  | deleteEdit
  | splitEdit
  | jumpEdit (forward : Bool)
deriving DecidableEq, Repr

/-- Modelled from the spec: the snapshot of editor state a transaction
delivers to the engine — the document text, the selection head (`cursor`),
the kind of change, and the offset ranges whose underlying text changed
(used to purge ignored entries). -/
structure Snapshot where
  text : List Char
  cursor : Nat
  editKind : EditKind
  changed : List (Nat × Nat)

/-- Modelled from the spec: a registered suggester — unique name, priority
(higher wins), pattern validity (whether the custom activation pattern is a
valid regular expression, checked at registration time), and its matcher as
a function of the state snapshot. -/
structure Suggester where
  name : String
  priority : Nat
  patternValid : Bool
  matchAt : Snapshot → Option SuggestMatch

/-- Modelled from the spec: one entry of the Ignored set — a suggester name
paired with the exact range that must not re-activate. -/
structure IgnoredEntry where
  name : String
  fromPos : Nat
  toPos : Nat
deriving DecidableEq, Repr

/-- Whether the Ignored set contains the exact range of a match for the
given suggester name. -/
def ignoredHas (ig : List IgnoredEntry) (n : String) (r : RangeWithCursor) : Bool :=
  ig.any fun e => e.name == n && e.fromPos == r.fromPos && e.toPos == r.toPos

/-- Whether two half-open offset ranges overlap. -/
def rangesOverlap (a1 b1 a2 b2 : Nat) : Bool :=
  a1 < b2 && a2 < b1

/-- Modelled from the spec: before winner selection runs, Ignored-set
entries whose range's underlying text has changed are purged (spec section
4.4 step 4). -/
def purgeIgnored (ig : List IgnoredEntry) (snap : Snapshot) : List IgnoredEntry :=
  ig.filter fun e =>
    !(snap.changed.any fun c => rangesOverlap e.fromPos e.toPos c.1 c.2)

/-- The data of the currently active match: winning suggester's name and
priority together with its computed match. -/
structure ActiveMatch where
  name : String
  priority : Nat
  smatch : SuggestMatch
deriving DecidableEq, Repr

/-- Modelled from the spec: the machine is either `Idle` (no active match)
or `Active` for exactly one winner (spec section 4.4). -/
inductive MachineState where
  | idle
  | active (m : ActiveMatch)
deriving DecidableEq, Repr

/-- Modelled from the spec: winner selection (spec section 4.4 step 2).  The
first suggester, in the registry's priority order, that produces a match
whose exact range is not in the Ignored set becomes the candidate winner. -/
def findWinner (snap : Snapshot) (ig : List IgnoredEntry) :
    List Suggester → Option ActiveMatch
  | [] => none
  | s :: rest =>
    match s.matchAt snap with
    | some m =>
      if ignoredHas ig s.name m.range then findWinner snap ig rest
      else some { name := s.name, priority := s.priority, smatch := m }
    | none => findWinner snap ig rest

/-- Modelled from the spec: exit-reason classification (the decision table
of spec section 4.3, rows where the new match is absent). -/
def classifyExit (prev : ActiveMatch) (snap : Snapshot) : Reason :=
  match snap.editKind with
  | .deleteEdit => .delete
  | .splitEdit => .invalidSplit
  | .selectionOnly =>
    if snap.cursor < prev.smatch.range.fromPos || prev.smatch.range.toPos < snap.cursor
    then .selectionOutside
    else .moveEnd
  | .jumpEdit forward => if forward then .jumpForward else .jumpBackward
  | .edit => .exitEnd

/-- Modelled from the spec: change-reason classification (the decision table
of spec section 4.3, rows where previous and new match are both present for
the same suggester): a pure selection change is a Move, otherwise Text. -/
def classifyChange (_prev _next : ActiveMatch) (snap : Snapshot) : Reason :=
  match snap.editKind with
  | .selectionOnly => .move
  | _ => .text

/-- Modelled from the spec: a lifecycle callback invocation — Start for a
new winner, a change (Move/Text) for a continuing winner, or an exit with
its classified reason. -/
inductive SuggestEvent where
  | start (name : String) (m : SuggestMatch)
  | change (name : String) (r : Reason) (m : SuggestMatch)
  | exit (name : String) (r : Reason)
deriving DecidableEq, Repr

/-- Modelled from the spec: the per-transaction transition of the match
state machine (spec section 4.4).  Purges stale ignored entries, selects the
candidate winner in priority order, compares it with the previously active
suggester and emits Start / Move / Text / Exit callbacks in order. -/
def transition (prev : MachineState) (suggesters : List Suggester)
    (ig : List IgnoredEntry) (snap : Snapshot) :
    MachineState × List SuggestEvent :=
  match findWinner snap (purgeIgnored ig snap) suggesters, prev with
  | some w, .idle => (.active w, [.start w.name w.smatch])
  | some w, .active x =>
    if w.name = x.name then
      (.active w, [.change w.name (classifyChange x w snap) w.smatch])
    else
      (.active w, [.exit x.name (classifyExit x snap), .start w.name w.smatch])
  | none, .idle => (.idle, [])
  | none, .active x => (.idle, [.exit x.name (classifyExit x snap)])

/-- The suggesters active when a transaction begins: none when idle, the
single winner when active. -/
def prevActiveNames : MachineState → List String
  | .idle => []
  | .active x => [x.name]

/-- How one callback invocation changes the set of suggesters that have
fired a Start/Move/Text change and not yet exited: a Start or change marks
its suggester active, an exit removes it. -/
def applyEvent (acc : List String) : SuggestEvent → List String
  | .start n _ => if n ∈ acc then acc else acc ++ [n]
  | .change n _ _ => if n ∈ acc then acc else acc ++ [n]
  | .exit n _ => acc.erase n

/-- The suggesters classified as active once a transaction's emitted events
have all fired, starting from the machine state the transaction began in. -/
def activeAfter (prev : MachineState) (events : List SuggestEvent) : List String :=
  events.foldl applyEvent (prevActiveNames prev)

/-- A suggester is eligible to win on a snapshot when its matcher produces a
match whose exact range is not in the (already purged) Ignored set. -/
def Eligible (s : Suggester) (ig : List IgnoredEntry) (snap : Snapshot) : Prop :=
  ∃ m, s.matchAt snap = some m ∧ ignoredHas ig s.name m.range = false

/-- After a transition the classified-active set is the winner alone, or
empty when there is no winner, whatever state the machine began in. -/
theorem activeAfter_transition (prev : MachineState) (sg : List Suggester)
    (ig : List IgnoredEntry) (snap : Snapshot) :
    activeAfter prev (transition prev sg ig snap).2 =
      (match findWinner snap (purgeIgnored ig snap) sg with
        | some w => [w.name]
        | none => []) := by
  cases hW : findWinner snap (purgeIgnored ig snap) sg with
  | none =>
    cases prev <;> simp [transition, hW, activeAfter, applyEvent, prevActiveNames]
  | some w =>
    cases prev with
    | idle => simp [transition, hW, activeAfter, applyEvent, prevActiveNames]
    | active x =>
      by_cases hxy : w.name = x.name <;>
        simp [transition, hW, activeAfter, applyEvent, prevActiveNames, hxy]

/-- In the registry's priority order, an eligible suggester of strictly
highest priority among the eligible ones is selected as the winner. -/
theorem findWinner_highest (snap : Snapshot) (ig : List IgnoredEntry) :
    ∀ sg : List Suggester,
      sg.Pairwise (fun a b => b.priority ≤ a.priority) →
      ∀ s₁ ∈ sg, Eligible s₁ ig snap →
        (∀ s₂ ∈ sg, s₂ ≠ s₁ → Eligible s₂ ig snap → s₂.priority < s₁.priority) →
        ∃ w, findWinner snap ig sg = some w ∧ w.name = s₁.name := by
  intro sg
  induction sg with
  | nil => intro _ s₁ h; simp at h
  | cons hd tl ih =>
    intro hpw s₁ hmem helig hmax
    rcases List.pairwise_cons.mp hpw with ⟨hrel, hpwtl⟩
    cases hm : hd.matchAt snap with
    | none =>
      have hne : s₁ ≠ hd := by
        rintro rfl
        rcases helig with ⟨m, hm', _⟩
        rw [hm] at hm'
        exact Option.noConfusion hm'
      have hmemtl : s₁ ∈ tl := by
        rcases List.mem_cons.mp hmem with h | h
        · exact absurd h hne
        · exact h
      have := ih hpwtl s₁ hmemtl helig
        (fun s₂ h2 hne2 he2 => hmax s₂ (List.mem_cons_of_mem _ h2) hne2 he2)
      simpa [findWinner, hm] using this
    | some m =>
      by_cases hig : ignoredHas ig hd.name m.range = true
      · have hne : s₁ ≠ hd := by
          rintro rfl
          rcases helig with ⟨m', hm', hig'⟩
          rw [hm] at hm'
          cases hm'
          rw [hig] at hig'
          exact Bool.noConfusion hig'
        have hmemtl : s₁ ∈ tl := by
          rcases List.mem_cons.mp hmem with h | h
          · exact absurd h hne
          · exact h
        have := ih hpwtl s₁ hmemtl helig
          (fun s₂ h2 hne2 he2 => hmax s₂ (List.mem_cons_of_mem _ h2) hne2 he2)
        simpa [findWinner, hm, hig] using this
      · have hig' : ignoredHas ig hd.name m.range = false := by
          simpa using hig
        by_cases hne : s₁ = hd
        · subst hne
          refine ⟨{ name := s₁.name, priority := s₁.priority, smatch := m }, ?_, rfl⟩
          simp [findWinner, hm, hig']
        · exfalso
          have hmemtl : s₁ ∈ tl := by
            rcases List.mem_cons.mp hmem with h | h
            · exact absurd h hne
            · exact h
          have hle : s₁.priority ≤ hd.priority := hrel s₁ hmemtl
          have hlt : hd.priority < s₁.priority :=
            hmax hd (List.mem_cons_self _ _) (fun h => hne h.symm) ⟨m, hm, hig'⟩
          exact absurd hle (not_le_of_lt hlt)

/-- C1: after the state machine processes a transaction the number of
suggesters classified as active is 0 or 1, never more; and when several
suggesters' patterns match, the one with the strictly highest priority among
the eligible suggesters is the sole winner, all others being suppressed for
that transaction. -/
theorem active_invariant (prev : MachineState) (sg : List Suggester)
    (ig : List IgnoredEntry) (snap : Snapshot) :
    (activeAfter prev (transition prev sg ig snap).2).length ≤ 1 ∧
    (sg.Pairwise (fun a b => b.priority ≤ a.priority) →
      ∀ s₁ ∈ sg, Eligible s₁ (purgeIgnored ig snap) snap →
        (∀ s₂ ∈ sg, s₂ ≠ s₁ → Eligible s₂ (purgeIgnored ig snap) snap →
          s₂.priority < s₁.priority) →
        activeAfter prev (transition prev sg ig snap).2 = [s₁.name]) := by
  have hAA := activeAfter_transition prev sg ig snap
  constructor
  · rw [hAA]
    cases findWinner snap (purgeIgnored ig snap) sg <;> simp
  · intro hpw s₁ hmem helig hmax
    obtain ⟨w, hw, hname⟩ :=
      findWinner_highest snap (purgeIgnored ig snap) sg hpw s₁ hmem helig hmax
    rw [hAA, hw]
    simp [hname]

/-- A concrete match used by the witnesses: suggester `alpha` matching the
range 0 to 2. -/
def exMatchA : SuggestMatch :=
  { name := "alpha"
    range := { fromPos := 0, toPos := 2, cursor := 2 }
    text := { full := "@a", upToCursor := "@a" }
    query := { full := "a", upToCursor := "a" } }

/-- A concrete match used by the witnesses: suggester `beta` matching the
same region as `alpha`. -/
def exMatchB : SuggestMatch :=
  { name := "beta"
    range := { fromPos := 0, toPos := 2, cursor := 2 }
    text := { full := "#a", upToCursor := "#a" }
    query := { full := "a", upToCursor := "a" } }

/-- A concrete high-priority suggester whose pattern matches the example
snapshot. -/
def exSugA : Suggester :=
  { name := "alpha", priority := 10, patternValid := true
    matchAt := fun _ => some exMatchA }

/-- A concrete low-priority suggester whose pattern also matches the example
snapshot. -/
def exSugB : Suggester :=
  { name := "beta", priority := 5, patternValid := true
    matchAt := fun _ => some exMatchB }

/-- A concrete snapshot for the witnesses. -/
def exSnap : Snapshot :=
  { text := ['@', 'a'], cursor := 2, editKind := .edit, changed := [] }

/-- Witness for C1: with the two overlapping matchers `alpha` (priority 10)
and `beta` (priority 5) both matching, at most one suggester is active and
the higher-priority `alpha` is the sole winner. -/
theorem active_invariant_witness :
    (activeAfter .idle (transition .idle [exSugA, exSugB] [] exSnap).2).length ≤ 1 ∧
    activeAfter .idle (transition .idle [exSugA, exSugB] [] exSnap).2 = ["alpha"] := by
  have h := active_invariant .idle [exSugA, exSugB] [] exSnap
  refine ⟨h.1, h.2 ?_ exSugA ?_ ?_ ?_⟩
  · simp [List.pairwise_cons, exSugA, exSugB]
  · simp
  · exact ⟨exMatchA, rfl, rfl⟩
  · intro s₂ hmem hne _
    rcases List.mem_cons.mp hmem with h1 | h1
    · exact absurd h1 hne
    · rcases List.mem_cons.mp h1 with h2 | h2
      · subst h2; simp [exSugA, exSugB]
      · simp at h2

/-- C2: when the machine switches the active suggester from `x` to a
different winner `w` within one transaction, the emitted callback list is
exactly the Exit for `x` followed by the Start for `w` — the Exit fires
strictly before the Start; and when there is no new winner the machine emits
the Exit reason for `x` and transitions to Idle. -/
theorem exit_before_start (sg : List Suggester) (ig : List IgnoredEntry)
    (snap : Snapshot) (x : ActiveMatch) :
    (∀ w, findWinner snap (purgeIgnored ig snap) sg = some w → w.name ≠ x.name →
      (transition (.active x) sg ig snap).2 =
        [SuggestEvent.exit x.name (classifyExit x snap),
          SuggestEvent.start w.name w.smatch]) ∧
    (findWinner snap (purgeIgnored ig snap) sg = none →
      transition (.active x) sg ig snap =
        (.idle, [SuggestEvent.exit x.name (classifyExit x snap)])) := by
  constructor
  · intro w hw hne
    simp [transition, hw, hne]
  · intro hw
    simp [transition, hw]

/-- Witness for C2: with `beta` previously active and the distinct winner
`alpha` appearing, the Exit for `beta` is emitted strictly before the Start
for `alpha`; and with no suggester registered, only the Exit for `beta` is
emitted and the machine returns to Idle. -/
theorem exit_before_start_witness :
    (transition (.active { name := "beta", priority := 5, smatch := exMatchB })
        [exSugA] [] exSnap).2 =
      [SuggestEvent.exit "beta"
          (classifyExit { name := "beta", priority := 5, smatch := exMatchB } exSnap),
        SuggestEvent.start "alpha" exMatchA] ∧
    transition (.active { name := "beta", priority := 5, smatch := exMatchB })
        [] [] exSnap =
      (.idle,
        [SuggestEvent.exit "beta"
          (classifyExit { name := "beta", priority := 5, smatch := exMatchB } exSnap)]) :=
  ⟨(exit_before_start [exSugA] [] exSnap
        { name := "beta", priority := 5, smatch := exMatchB }).1
      { name := "alpha", priority := 10, smatch := exMatchA } (by decide) (by decide),
    (exit_before_start [] [] exSnap
        { name := "beta", priority := 5, smatch := exMatchB }).2 rfl⟩

/-- C3: matcher evaluation is deterministic — the machine state (and hence
the active Match result) produced by processing a transaction is a function
of the document/selection snapshot, the registered suggesters and the
ignored set alone: it does not depend on the machine's prior state, and it
equals the winner computed afresh from the snapshot. -/
theorem matcher_deterministic (sg : List Suggester) (ig : List IgnoredEntry)
    (snap : Snapshot) (prev₁ prev₂ : MachineState) :
    (transition prev₁ sg ig snap).1 = (transition prev₂ sg ig snap).1 ∧
    (transition prev₁ sg ig snap).1 =
      (match findWinner snap (purgeIgnored ig snap) sg with
        | some w => MachineState.active w
        | none => MachineState.idle) := by
  have key : ∀ prev : MachineState,
      (transition prev sg ig snap).1 =
        (match findWinner snap (purgeIgnored ig snap) sg with
          | some w => MachineState.active w
          | none => MachineState.idle) := by
    intro prev
    cases hW : findWinner snap (purgeIgnored ig snap) sg with
    | none => cases prev <;> simp [transition, hW]
    | some w =>
      cases prev with
      | idle => simp [transition, hW]
      | active x =>
        by_cases hxy : w.name = x.name <;> simp [transition, hW, hxy]
  exact ⟨(key prev₁).trans (key prev₂).symm, key prev₁⟩

/-- The snapshot of the C7 scenario: the document holds the single character
`@` and the cursor sits immediately after it. -/
def atSnap : Snapshot :=
  { text := ['@'], cursor := 1, editKind := .edit, changed := [] }

/-- A suggester registered with activation character `@` and the default
configuration, its matcher being the spec-modelled Matcher. -/
def atSuggester : Suggester :=
  { name := "at", priority := 50, patternValid := true
    matchAt := fun snap =>
      findMatch (defaultSuggesterConfig "at" '@') snap.text snap.cursor }

/-- The Match computed in the C7 scenario. -/
def atMatch : SuggestMatch :=
  { name := "at"
    range := { fromPos := 0, toPos := 1, cursor := 1 }
    text := { full := "@", upToCursor := "@" }
    query := { full := "", upToCursor := "" } }

/-- C7: for a suggester with activation character `@` and default
configuration, typing `@` alone with the cursor immediately after it emits a
Start whose `query.full` is the empty string and whose range spans exactly
the `@` character — the default match offset of 0 permits a match with zero
characters after the activation character. -/
theorem at_scenario_start :
    transition .idle [atSuggester] [] atSnap =
      (.active { name := "at", priority := 50, smatch := atMatch },
        [SuggestEvent.start "at" atMatch]) ∧
    atMatch.query.full = "" ∧
    atMatch.range.fromPos = 0 ∧ atMatch.range.toPos = 1 ∧
    (defaultSuggesterConfig "at" '@').matchOffset = 0 := by
  refine ⟨?_, rfl, rfl, rfl, rfl⟩
  decide

/-- Modelled from the spec: `ConfigError` — invalid suggester registration,
either a duplicate name or an invalid activation pattern (spec sections 4.1
and 7). -/
inductive ConfigError where
  | duplicateName (n : String)
  | invalidPattern (n : String)

/-- Modelled from the spec: the Suggester Registry — the ordered collection
of registered suggesters, highest priority first. -/
structure Registry where
  entries : List Suggester

/-- Modelled from the spec: `list()` — the ordered sequence of suggesters,
highest priority first; this defines the evaluation order for matching. -/
def Registry.list (r : Registry) : List Suggester :=
  r.entries

/-- Inserts a suggester into a priority-ordered list: it is placed before
the first entry of strictly lower priority, so higher priority sorts
earlier and equal priorities keep registration order. -/
def insertByPriority (s : Suggester) : List Suggester → List Suggester
  | [] => [s]
  | t :: rest =>
    if t.priority < s.priority then s :: t :: rest
    else t :: insertByPriority s rest

/-- Modelled from the spec: `add(suggester)` / `addSuggester` — fails with a
`ConfigError`, synchronously to the caller, when the name is already
registered or the pattern is invalid; otherwise inserts in priority order
(higher priority sorts earlier). -/
def addSuggester (r : Registry) (s : Suggester) : Except ConfigError Registry :=
  if r.entries.any (fun t => t.name == s.name) then
    .error (.duplicateName s.name)
  else if !s.patternValid then
    .error (.invalidPattern s.name)
  else
    .ok { entries := insertByPriority s r.entries }

/-- Membership in a priority-ordered insertion is membership in the original
list or being the inserted element. -/
theorem mem_insertByPriority (s t : Suggester) :
    ∀ l : List Suggester, t ∈ insertByPriority s l ↔ t = s ∨ t ∈ l := by
  intro l
  induction l with
  | nil => simp [insertByPriority]
  | cons hd tl ih =>
    by_cases h : hd.priority < s.priority
    · simp only [insertByPriority, if_pos h, List.mem_cons]
    · simp only [insertByPriority, if_neg h, List.mem_cons, ih]
      tauto

/-- Priority-ordered insertion preserves the higher-priority-first order. -/
theorem insertByPriority_pairwise (s : Suggester) :
    ∀ l : List Suggester, l.Pairwise (fun a b => b.priority ≤ a.priority) →
      (insertByPriority s l).Pairwise (fun a b => b.priority ≤ a.priority) := by
  intro l
  induction l with
  | nil => intro _; simp [insertByPriority]
  | cons hd tl ih =>
    intro hpw
    rcases List.pairwise_cons.mp hpw with ⟨hrel, hpwtl⟩
    by_cases h : hd.priority < s.priority
    · rw [insertByPriority, if_pos h]
      refine List.pairwise_cons.mpr ⟨?_, hpw⟩
      intro b hb
      rcases List.mem_cons.mp hb with rfl | hb
      · exact le_of_lt h
      · exact le_trans (hrel b hb) (le_of_lt h)
    · rw [insertByPriority, if_neg h]
      refine List.pairwise_cons.mpr ⟨?_, ih hpwtl⟩
      intro b hb
      rcases (mem_insertByPriority s b tl).mp hb with rfl | hb
      · exact le_of_not_lt h
      · exact hrel b hb

/-- C5: `add(suggester)` raises `ConfigError`, synchronously to the caller,
exactly when the suggester's name is already registered or its pattern is
invalid; on success the suggester is inserted in priority order — the
resulting `list()` contains the old entries plus the new suggester and
remains ordered with higher priority earlier, which is the evaluation order
used for matching. -/
theorem addSuggester_spec (r : Registry) (s : Suggester) :
    ((∃ r', addSuggester r s = .ok r') ↔
      ((∀ t ∈ r.entries, t.name ≠ s.name) ∧ s.patternValid = true)) ∧
    ((r.list).Pairwise (fun a b => b.priority ≤ a.priority) →
      ∀ r', addSuggester r s = .ok r' →
        (r'.list).Pairwise (fun a b => b.priority ≤ a.priority) ∧
        (∀ t, t ∈ r'.list ↔ (t = s ∨ t ∈ r.list))) := by
  constructor
  · constructor
    · rintro ⟨r', hr'⟩
      by_cases hdup : r.entries.any (fun t => t.name == s.name) = true
      · rw [addSuggester, if_pos hdup] at hr'
        exact absurd hr' (by simp)
      · constructor
        · intro t ht hname
          exact hdup (List.any_eq_true.mpr ⟨t, ht, by simp [hname]⟩)
        · by_cases hpat : s.patternValid = true
          · exact hpat
          · rw [addSuggester, if_neg hdup] at hr'
            simp [hpat] at hr'
    · rintro ⟨hnames, hpat⟩
      have hdup : r.entries.any (fun t => t.name == s.name) = false := by
        simp only [List.any_eq_false]
        intro t ht
        simp [hnames t ht]
      refine ⟨{ entries := insertByPriority s r.entries }, ?_⟩
      rw [addSuggester, if_neg (by simp [hdup]), if_neg (by simp [hpat])]
  · intro hpw r' hr'
    have hok : r' = { entries := insertByPriority s r.entries } := by
      by_cases hdup : r.entries.any (fun t => t.name == s.name) = true
      · rw [addSuggester, if_pos hdup] at hr'
        exact absurd hr' (by simp)
      · by_cases hpat : s.patternValid = true
        · rw [addSuggester, if_neg hdup, if_neg (by simp [hpat])] at hr'
          exact (Except.ok.injEq _ _ ▸ hr').symm ▸ by
            cases hr'
            rfl
        · rw [addSuggester, if_neg hdup] at hr'
          simp [hpat] at hr'
    subst hok
    exact ⟨insertByPriority_pairwise s r.entries hpw,
      fun t => mem_insertByPriority s t r.entries⟩

/-- Witness for C5: adding a fresh valid suggester to a registry holding
`alpha` succeeds with the priority order preserved, the new entry placed
first (its priority 20 exceeds 10), while re-adding a suggester named
`alpha` and adding one with an invalid pattern both fail. -/
theorem addSuggester_spec_witness :
    (∃ r', addSuggester { entries := [exSugA] } exSugB = .ok r') ∧
    (∀ r',
      addSuggester { entries := [exSugA] } exSugB = .ok r' →
        (r'.list).Pairwise (fun a b => b.priority ≤ a.priority) ∧
        (∀ t, t ∈ r'.list ↔ (t = exSugB ∨ t ∈ ({ entries := [exSugA] } : Registry).list))) ∧
    ¬(∃ r', addSuggester { entries := [exSugA] } exSugA = .ok r') := by
  refine ⟨?_, ?_, ?_⟩
  · exact (addSuggester_spec { entries := [exSugA] } exSugB).1.mpr
      ⟨by intro t ht; simp at ht; subst ht; simp [exSugA, exSugB], rfl⟩
  · exact (addSuggester_spec { entries := [exSugA] } exSugB).2
      (by simp [Registry.list])
  · intro hex
    have := (addSuggester_spec { entries := [exSugA] } exSugA).1.mp hex
    exact (this.1 exSugA (by simp)) rfl

/-- From `mention-extension.ts`: `DEFAULT_MATCHER.appendText` — the empty
string. -/
def DEFAULT_MATCHER_appendText : String := ""

/-- From `mention-extension.ts` (`getAppendText`): returns the preferred
value whenever it is a string (absence modelled as `none`), otherwise the
fallback when that is a string, otherwise `DEFAULT_MATCHER.appendText`. -/
def getAppendText (preferred fallback : Option String) : String :=
  match preferred with
  | some s => s
  | none =>
    match fallback with
    | some t => t
    | none => DEFAULT_MATCHER_appendText

/-- C9: `getAppendText` returns the preferred value whenever it is a string
— including the empty string, which is not treated as absent — returns the
fallback only when preferred is not a string and fallback is a string, and
returns the empty string when neither argument is a string. -/
theorem getAppendText_spec (s t : String) (f : Option String) :
    getAppendText (some s) f = s ∧
    getAppendText (some "") f = "" ∧
    getAppendText none (some t) = t ∧
    getAppendText none none = "" :=
  ⟨rfl, rfl, rfl, rfl⟩

/-- From `mention-extension.ts`: one entry of the `matchers` option — here
only the fields the commands consult: its unique name and its optional
per-matcher append text. -/
structure MentionMatcher where
  name : String
  appendText : Option String
deriving DecidableEq, Repr

/-- The input of the `createMention`/`updateMention` command factory, with
JavaScript truthiness made explicit: whether the supplied attributes value
is a plain object, whether its `id` and `label` are truthy, and the `name`
attribute (`none` models an omitted name; an empty string is falsy). -/
structure MentionCommandConfig where
  plainObject : Bool
  idTruthy : Bool
  labelTruthy : Bool
  name : Option String
deriving DecidableEq, Repr

/-- From `mention-extension.ts` (`isValidMentionAttributes`): the attributes
must be a plain object with truthy `id` and truthy `label`. -/
def isValidMentionAttributes (c : MentionCommandConfig) : Bool :=
  c.plainObject && c.idTruthy && c.labelTruthy

/-- JavaScript truthiness of the `name` attribute: falsy when omitted or the
empty string. -/
def nameTruthy : Option String → Bool
  | none => false
  | some s => s != ""

/-- The ways the `createMention` command factory can throw: the invariant
violations of `mention-extension.ts` lines 372 to 403, plus the runtime
error of reading `matchers[0].name` with no matcher configured. -/
inductive MentionCommandError where
  | invalidAttributes
  | nameRequired
  | nameNotAllowed
  | noMatcher
deriving DecidableEq, Repr

/-- From `mention-extension.ts` (`createMention`, the validation prefix of
the command factory): requires valid attributes; when the name is falsy it
requires fewer than two configured matchers and defaults to the first
matcher's name (reading `matchers[0].name` with no matcher configured is a
runtime error, modelled as `noMatcher`); then requires the resolved name to
be among the configured matchers' names, and looks the matcher up.  On
success it returns the resolved name. -/
def createMention (matchers : List MentionMatcher) (config : MentionCommandConfig) :
    Except MentionCommandError String :=
  if !isValidMentionAttributes config then .error .invalidAttributes
  else
    let resolved : Except MentionCommandError String :=
      if nameTruthy config.name then .ok (config.name.getD "")
      else if 2 ≤ matchers.length then .error .nameRequired
      else
        match matchers.head? with
        | some m => .ok m.name
        | none => .error .noMatcher
    match resolved with
    | .error e => .error e
    | .ok n =>
      if (matchers.map (fun m => m.name)).contains n then
        match matchers.find? (fun m => m.name == n) with
        | some _ => .ok n
        | none => .error .noMatcher
      else .error .nameNotAllowed

/-- C8: the `createMention`/`updateMention` command factory validates its
input before producing a command — it throws unless the attributes are a
plain object with truthy id and label; with the name omitted it throws when
two or more matchers are configured and otherwise defaults to the single
configured matcher's name; and it throws when the resolved name is not among
the configured matchers' names (and succeeds when it is). -/
theorem createMention_spec (matchers : List MentionMatcher)
    (config : MentionCommandConfig) :
    (isValidMentionAttributes config = false →
      createMention matchers config = .error .invalidAttributes) ∧
    (isValidMentionAttributes config = true → nameTruthy config.name = false →
      2 ≤ matchers.length →
      createMention matchers config = .error .nameRequired) ∧
    (∀ m, isValidMentionAttributes config = true → nameTruthy config.name = false →
      matchers = [m] →
      createMention matchers config = .ok m.name) ∧
    (∀ n, isValidMentionAttributes config = true → config.name = some n → n ≠ "" →
      n ∉ matchers.map (fun m => m.name) →
      createMention matchers config = .error .nameNotAllowed) ∧
    (∀ n, isValidMentionAttributes config = true → config.name = some n → n ≠ "" →
      n ∈ matchers.map (fun m => m.name) →
      createMention matchers config = .ok n) := by
  refine ⟨?_, ?_, ?_, ?_, ?_⟩
  · intro hval
    simp [createMention, hval]
  · intro hval hname hlen
    simp [createMention, hval, hname, hlen]
  · intro m hval hname hm
    subst hm
    simp [createMention, hval, hname]
  · intro n hval hname hne hmem
    have hnt : nameTruthy config.name = true := by
      simp [nameTruthy, hname, hne]
    have hnot : ¬ ∃ a ∈ matchers, a.name = n := by
      simpa using hmem
    simp [createMention, hval, hnt, hname, nameTruthy, hne, hnot]
  · intro n hval hname hne hmem
    have hnt : nameTruthy config.name = true := by
      simp [nameTruthy, hname, hne]
    obtain ⟨m, hm, hmn⟩ := List.mem_map.mp hmem
    have hex : ∃ a ∈ matchers, a.name = n := ⟨m, hm, hmn⟩
    have hsome : (matchers.find? (fun m' => m'.name == n)).isSome := by
      rw [List.find?_isSome]
      exact ⟨m, hm, by simp [hmn]⟩
    obtain ⟨m', hm'⟩ := Option.isSome_iff_exists.mp hsome
    simp [createMention, hval, hnt, hname, nameTruthy, hne, hex, hm']

/-- A concrete matcher named `foo` for the witnesses. -/
def exMatcherFoo : MentionMatcher := { name := "foo", appendText := none }

/-- A concrete matcher named `bar` for the witnesses. -/
def exMatcherBar : MentionMatcher := { name := "bar", appendText := some " " }

/-- A valid attributes object with the `name` attribute omitted. -/
def exValidCfg : MentionCommandConfig :=
  { plainObject := true, idTruthy := true, labelTruthy := true, name := none }

/-- Witness for C8: a falsy id throws; an omitted name throws with two
matchers configured and defaults to `foo` with a single matcher; an unknown
name throws; a configured name succeeds. -/
theorem createMention_spec_witness :
    createMention [exMatcherFoo]
        { plainObject := true, idTruthy := false, labelTruthy := true, name := none } =
      .error .invalidAttributes ∧
    createMention [exMatcherFoo, exMatcherBar] exValidCfg = .error .nameRequired ∧
    createMention [exMatcherFoo] exValidCfg = .ok "foo" ∧
    createMention [exMatcherFoo] { exValidCfg with name := some "baz" } =
      .error .nameNotAllowed ∧
    createMention [exMatcherFoo, exMatcherBar] { exValidCfg with name := some "bar" } =
      .ok "bar" :=
  ⟨(createMention_spec [exMatcherFoo]
      { plainObject := true, idTruthy := false, labelTruthy := true, name := none }).1
      (by decide),
    (createMention_spec [exMatcherFoo, exMatcherBar] exValidCfg).2.1
      (by decide) (by decide) (by decide),
    (createMention_spec [exMatcherFoo] exValidCfg).2.2.1 exMatcherFoo
      (by decide) (by decide) rfl,
    (createMention_spec [exMatcherFoo] { exValidCfg with name := some "baz" }).2.2.2.1
      "baz" (by decide) rfl (by decide) (by decide),
    (createMention_spec [exMatcherFoo, exMatcherBar]
      { exValidCfg with name := some "bar" }).2.2.2.2
      "bar" (by decide) rfl (by decide) (by decide)⟩

/-- The part of the `onChange` handler parameter that `mentionExitHandler`
consults: the optional exit reason and the optional change reason. -/
structure SuggestChangeHandlerParameter where
  exitReason : Option Reason
  changeReason : Option Reason
deriving DecidableEq, Repr

/-- Lifts a reason facet predicate to an optional reason (JavaScript
predicates applied to `undefined` return false). -/
def optReason (p : Reason → Bool) : Option Reason → Bool
  | none => false
  | some r => p r

/-- The observable outcome of one `mentionExitHandler` run: whether
`setMarkRemoved` was invoked, whether mention removal was attempted, and the
command's result — `Except.error` models an uncaught exception escaping to
the caller, `Except.ok` a normal boolean return. -/
structure MentionExitOutcome where
  setMarkRemoved : Bool
  removalAttempted : Bool
  result : Except Unit Bool
deriving Repr

/-- From `mention-extension.ts` (`mentionExitHandler`, lines 218 to 245):
the reason is `exitReason ?? changeReason`; when it is an invalid-split or
removed reason the handler calls `setMarkRemoved` and then evaluates
`isInvalid && removeMention(...)` inside a try/catch, returning true from
the catch when removal throws; otherwise it delegates to the
update-or-create command, whose result is the `fallbackCommand`
parameter. -/
def mentionExitHandler (handler : SuggestChangeHandlerParameter)
    (removal fallbackCommand : Except Unit Bool) : MentionExitOutcome :=
  let reason := handler.exitReason.or handler.changeReason
  let isInvalid := optReason isInvalidSplitReason reason
  let isRemoved := optReason isRemovedReason reason
  if isInvalid || isRemoved then
    if isInvalid then
      match removal with
      | .ok b => { setMarkRemoved := true, removalAttempted := true, result := .ok b }
      | .error _ => { setMarkRemoved := true, removalAttempted := true, result := .ok true }
    else { setMarkRemoved := true, removalAttempted := false, result := .ok false }
  else { setMarkRemoved := false, removalAttempted := false, result := fallbackCommand }

/-- C4: when the exit reason is an invalid-split reason and removing the
mention mark throws, the exception is caught and the command returns true
without rethrowing; when the reason is a removed reason but not an
invalid-split reason, the command calls `setMarkRemoved` and returns false
without attempting removal. -/
theorem mention_exit_handler_spec (handler : SuggestChangeHandlerParameter)
    (removal fallbackCommand : Except Unit Bool) :
    (optReason isInvalidSplitReason (handler.exitReason.or handler.changeReason) = true →
      removal = .error () →
      mentionExitHandler handler removal fallbackCommand =
        { setMarkRemoved := true, removalAttempted := true, result := .ok true }) ∧
    (optReason isRemovedReason (handler.exitReason.or handler.changeReason) = true →
      optReason isInvalidSplitReason (handler.exitReason.or handler.changeReason) = false →
      mentionExitHandler handler removal fallbackCommand =
        { setMarkRemoved := true, removalAttempted := false, result := .ok false }) := by
  constructor
  · intro hinv hrem
    simp [mentionExitHandler, hinv, hrem]
  · intro hrm hinv
    simp [mentionExitHandler, hrm, hinv]

/-- Witness for C4: with exit reason InvalidSplit and a removal that throws,
the handler reports success without rethrowing; with exit reason Delete, it
marks the mention removed and returns false without attempting removal. -/
theorem mention_exit_handler_spec_witness :
    mentionExitHandler { exitReason := some .invalidSplit, changeReason := none }
        (.error ()) (.ok false) =
      { setMarkRemoved := true, removalAttempted := true, result := .ok true } ∧
    mentionExitHandler { exitReason := some .delete, changeReason := none }
        (.error ()) (.ok false) =
      { setMarkRemoved := true, removalAttempted := false, result := .ok false } :=
  ⟨(mention_exit_handler_spec
      { exitReason := some .invalidSplit, changeReason := none }
      (.error ()) (.ok false)).1 rfl rfl,
    (mention_exit_handler_spec
      { exitReason := some .delete, changeReason := none }
      (.error ()) (.ok false)).2 rfl rfl⟩

/-- A JavaScript property value, as far as `decorators.ts` inspects one:
only its identity and its truthiness matter.  `undef` doubles as the value
read from an absent property. -/
inductive JSVal where
  | undef
  | boolV (b : Bool)
  | numV (n : Int)
  | strV (s : String)
  | listV (l : List String)
  | objV (id : Nat)
deriving DecidableEq, Repr

/-- JavaScript truthiness: `undefined`, `false`, `0` and the empty string
are falsy; arrays and objects are truthy. -/
def truthy : JSVal → Bool
  | .undef => false
  | .boolV b => b
  | .numV n => n != 0
  | .strV s => s != ""
  | .listV _ => true
  | .objV _ => true

/-- From `decorators.ts`: the options object passed to
`extensionDecorator`, destructured into the six known fields plus the
object-rest `rest` of remaining entries (so `rest` never contains the six
destructured keys).  Omitted fields read as `undefined` / `none`. -/
structure ExtensionDecoratorOptions where
  defaultOptions : JSVal
  defaultPriority : JSVal
  handlerKeyOptions : JSVal
  staticKeys : Option (List String)
  handlerKeys : Option (List String)
  customHandlerKeys : Option (List String)
  rest : List (String × JSVal)

/-- Assignment of one property on a constructor modelled as a property
map. -/
def updateProp (c : String → JSVal) (k : String) (v : JSVal) : String → JSVal :=
  fun k' => if k' = k then v else c k'

/-- From `decorators.ts` (the `for (const [key, value] of entries(rest))`
loop): each remaining entry is skipped when the constructor's current value
for that key is truthy and assigned otherwise. -/
def applyRest : List (String × JSVal) → (String → JSVal) → (String → JSVal)
  | [], c => c
  | (k, v) :: entries, c =>
    applyRest entries (if truthy (c k) then c else updateProp c k v)

/-- From `decorators.ts` (`extensionDecorator`, first half): assigns
`defaultOptions`, `defaultPriority` and `handlerKeyOptions` when the
provided value is truthy, then sets the three key lists to the provided
lists or `[]` when omitted (`?? []`). -/
def assignKnown (o : ExtensionDecoratorOptions) (c : String → JSVal) :
    String → JSVal :=
  let c1 := if truthy o.defaultOptions then updateProp c "defaultOptions" o.defaultOptions else c
  let c2 := if truthy o.defaultPriority then updateProp c1 "defaultPriority" o.defaultPriority else c1
  let c3 := if truthy o.handlerKeyOptions then updateProp c2 "handlerKeyOptions" o.handlerKeyOptions else c2
  let c4 := updateProp c3 "staticKeys" (.listV (o.staticKeys.getD []))
  let c5 := updateProp c4 "handlerKeys" (.listV (o.handlerKeys.getD []))
  updateProp c5 "customHandlerKeys" (.listV (o.customHandlerKeys.getD []))

/-- From `decorators.ts` (`extensionDecorator`): the known-field assignments
followed by the skip-if-truthy loop over the remaining entries. -/
def extensionDecorator (o : ExtensionDecoratorOptions) (c : String → JSVal) :
    String → JSVal :=
  applyRest o.rest (assignKnown o c)

/-- The six destructured option keys of `extensionDecorator`. -/
def decoratorKeys : List String :=
  ["defaultOptions", "defaultPriority", "handlerKeyOptions",
    "staticKeys", "handlerKeys", "customHandlerKeys"]

/-- The rest loop never changes a key whose current value is truthy. -/
theorem applyRest_of_truthy :
    ∀ (l : List (String × JSVal)) (c : String → JSVal) (k : String),
      truthy (c k) = true → applyRest l c k = c k := by
  intro l
  induction l with
  | nil => intro c k _; rfl
  | cons hd tl ih =>
    intro c k hk
    obtain ⟨k0, v0⟩ := hd
    by_cases h0 : truthy (c k0) = true
    · simpa [applyRest, h0] using ih c k hk
    · simp only [applyRest, if_neg h0]
      have hne : k ≠ k0 := by
        rintro rfl
        exact h0 hk
      have hval : updateProp c k0 v0 k = c k := by
        simp [updateProp, hne]
      rw [ih (updateProp c k0 v0) k (by rw [hval]; exact hk), hval]

/-- The rest loop leaves keys it never visits unchanged. -/
theorem applyRest_not_mem :
    ∀ (l : List (String × JSVal)) (c : String → JSVal) (k : String),
      k ∉ l.map Prod.fst → applyRest l c k = c k := by
  intro l
  induction l with
  | nil => intro c k _; rfl
  | cons hd tl ih =>
    intro c k hk
    obtain ⟨k0, v0⟩ := hd
    simp only [List.map_cons, List.mem_cons] at hk
    push_neg at hk
    obtain ⟨hne, htl⟩ := hk
    by_cases h0 : truthy (c k0) = true
    · simpa [applyRest, h0] using ih c k htl
    · simp only [applyRest, if_neg h0]
      rw [ih _ k htl]
      simp [updateProp, hne]

/-- A visited key whose current value is falsy receives the visited value,
provided the rest keys are distinct (object entries are). -/
theorem applyRest_mem :
    ∀ (l : List (String × JSVal)) (c : String → JSVal) (k : String) (v : JSVal),
      (k, v) ∈ l → (l.map Prod.fst).Nodup → truthy (c k) = false →
      applyRest l c k = v := by
  intro l
  induction l with
  | nil => intro c k v hmem; simp at hmem
  | cons hd tl ih =>
    intro c k v hmem hnd hk
    obtain ⟨k0, v0⟩ := hd
    simp only [List.map_cons, List.nodup_cons] at hnd
    obtain ⟨hk0tl, hndtl⟩ := hnd
    rcases List.mem_cons.mp hmem with heq | htl
    · obtain ⟨rfl, rfl⟩ := Prod.mk.injEq _ _ _ _ ▸ heq
      have hknotin : k ∉ tl.map Prod.fst := hk0tl
      have step : applyRest ((k, v) :: tl) c =
          applyRest tl (if truthy (c k) then c else updateProp c k v) := rfl
      rw [step, if_neg (by simp [hk])]
      rw [applyRest_not_mem tl _ k hknotin]
      simp [updateProp]
    · have hne : k ≠ k0 := by
        rintro rfl
        exact hk0tl (List.mem_map.mpr ⟨(k, v), htl, rfl⟩)
      by_cases h0 : truthy (c k0) = true
      · simpa [applyRest, h0] using ih c k v htl hndtl hk
      · simp only [applyRest, if_neg h0]
        have hval : updateProp c k0 v0 k = c k := by
          simp [updateProp, hne]
        exact ih _ k v htl hndtl (by rw [hval]; exact hk)

/-- The known-field assignments set the three key lists. -/
theorem assignKnown_keyLists (o : ExtensionDecoratorOptions) (c : String → JSVal) :
    assignKnown o c "staticKeys" = .listV (o.staticKeys.getD []) ∧
    assignKnown o c "handlerKeys" = .listV (o.handlerKeys.getD []) ∧
    assignKnown o c "customHandlerKeys" = .listV (o.customHandlerKeys.getD []) := by
  refine ⟨?_, ?_, ?_⟩ <;> simp [assignKnown, updateProp]

/-- The known-field assignments leave keys outside the six destructured
names unchanged. -/
theorem assignKnown_not_special (o : ExtensionDecoratorOptions) (c : String → JSVal)
    (k : String) (hk : k ∉ decoratorKeys) :
    assignKnown o c k = c k := by
  simp only [decoratorKeys, List.mem_cons, List.not_mem_nil, or_false, not_or] at hk
  obtain ⟨h1, h2, h3, h4, h5, h6⟩ := hk
  simp only [assignKnown]
  split_ifs <;> simp [updateProp, h1, h2, h3, h4, h5, h6]

/-- An omitted `defaultOptions`, `defaultPriority` or `handlerKeyOptions`
leaves the corresponding constructor property untouched by the known-field
assignments. -/
theorem assignKnown_undef (o : ExtensionDecoratorOptions) (c : String → JSVal) :
    (o.defaultOptions = .undef →
      assignKnown o c "defaultOptions" = c "defaultOptions") ∧
    (o.defaultPriority = .undef →
      assignKnown o c "defaultPriority" = c "defaultPriority") ∧
    (o.handlerKeyOptions = .undef →
      assignKnown o c "handlerKeyOptions" = c "handlerKeyOptions") := by
  refine ⟨?_, ?_, ?_⟩ <;> intro h <;> simp only [assignKnown, h] <;>
    split_ifs <;> simp_all [updateProp, truthy]

/-- C10 (amended): `extensionDecorator` sets the constructor's
`staticKeys`, `handlerKeys` and `customHandlerKeys` to the provided lists
or to empty arrays when omitted, assigns `defaultOptions`,
`defaultPriority` and `handlerKeyOptions` only when provided, and for every
remaining extra option key it leaves an already-truthy constructor property
unchanged and assigns the key whenever the constructor's current value for
it is falsy (absent or defined with a falsy value). -/
theorem extensionDecorator_spec (o : ExtensionDecoratorOptions) (c : String → JSVal)
    (hrest : ∀ p ∈ o.rest, p.1 ∉ decoratorKeys)
    (hnd : (o.rest.map Prod.fst).Nodup) :
    extensionDecorator o c "staticKeys" = .listV (o.staticKeys.getD []) ∧
    extensionDecorator o c "handlerKeys" = .listV (o.handlerKeys.getD []) ∧
    extensionDecorator o c "customHandlerKeys" = .listV (o.customHandlerKeys.getD []) ∧
    (o.defaultOptions = .undef →
      extensionDecorator o c "defaultOptions" = c "defaultOptions") ∧
    (o.defaultPriority = .undef →
      extensionDecorator o c "defaultPriority" = c "defaultPriority") ∧
    (o.handlerKeyOptions = .undef →
      extensionDecorator o c "handlerKeyOptions" = c "handlerKeyOptions") ∧
    (∀ k v, (k, v) ∈ o.rest →
      (truthy (c k) = true → extensionDecorator o c k = c k) ∧
      (truthy (c k) = false → extensionDecorator o c k = v)) := by
  have hspecial : ∀ k0 : String, k0 ∈ decoratorKeys → k0 ∉ o.rest.map Prod.fst := by
    intro k0 hk0 hmem
    obtain ⟨p, hp, hfst⟩ := List.mem_map.mp hmem
    exact hrest p hp (hfst ▸ hk0)
  obtain ⟨hstat, hhand, hcust⟩ := assignKnown_keyLists o c
  obtain ⟨hdo, hdp, hhk⟩ := assignKnown_undef o c
  refine ⟨?_, ?_, ?_, ?_, ?_, ?_, ?_⟩
  · rw [extensionDecorator, applyRest_of_truthy _ _ _ (by rw [hstat]; rfl), hstat]
  · rw [extensionDecorator, applyRest_of_truthy _ _ _ (by rw [hhand]; rfl), hhand]
  · rw [extensionDecorator, applyRest_of_truthy _ _ _ (by rw [hcust]; rfl), hcust]
  · intro h
    rw [extensionDecorator,
      applyRest_not_mem _ _ _ (hspecial "defaultOptions" (by simp [decoratorKeys])),
      hdo h]
  · intro h
    rw [extensionDecorator,
      applyRest_not_mem _ _ _ (hspecial "defaultPriority" (by simp [decoratorKeys])),
      hdp h]
  · intro h
    rw [extensionDecorator,
      applyRest_not_mem _ _ _ (hspecial "handlerKeyOptions" (by simp [decoratorKeys])),
      hhk h]
  · intro k v hmem
    have hck : assignKnown o c k = c k :=
      assignKnown_not_special o c k (hrest (k, v) hmem)
    constructor
    · intro ht
      rw [extensionDecorator, applyRest_of_truthy _ _ _ (by rw [hck]; exact ht), hck]
    · intro hf
      rw [extensionDecorator]
      exact applyRest_mem o.rest _ k v hmem hnd (by rw [hck]; exact hf)

/-- A constructor that defines the property `custom` with the falsy value
`false`. -/
def exCtor : String → JSVal :=
  fun k => if k ≠ "custom" then JSVal.undef else JSVal.boolV false

/-- Decorator options whose rest entries carry a value for `custom`. -/
def exDecoratorOptions : ExtensionDecoratorOptions :=
  { defaultOptions := .undef
    defaultPriority := .undef
    handlerKeyOptions := .undef
    staticKeys := none
    handlerKeys := none
    customHandlerKeys := none
    rest := [("custom", .strV "assigned")] }

/-- Counterexample for C10 as stated: the constructor already defines the
key `custom` (with the falsy value `false`), yet the decorator assigns it —
so the rest loop does not assign "only keys the constructor does not yet
define"; its guard is truthiness, not definedness. -/
theorem extensionDecorator_counterexample :
    exCtor "custom" ≠ JSVal.undef ∧
    extensionDecorator exDecoratorOptions exCtor "custom" = JSVal.strV "assigned" ∧
    extensionDecorator exDecoratorOptions exCtor "custom" ≠ exCtor "custom" := by
  refine ⟨by decide, by decide, by decide⟩

/-- Witness for C10 (amended): on the concrete constructor and options the
key lists are set to `[]`, the omitted `defaultOptions` is untouched, and
the falsy-defined `custom` property receives the rest entry's value. -/
theorem extensionDecorator_spec_witness :
    extensionDecorator exDecoratorOptions exCtor "staticKeys" = JSVal.listV [] ∧
    extensionDecorator exDecoratorOptions exCtor "defaultOptions" =
      exCtor "defaultOptions" ∧
    extensionDecorator exDecoratorOptions exCtor "custom" = JSVal.strV "assigned" := by
  have h := extensionDecorator_spec exDecoratorOptions exCtor
    (by
      intro p hp
      simp only [exDecoratorOptions, List.mem_singleton] at hp
      subst hp
      decide)
    (by decide)
  exact ⟨h.1, h.2.2.2.1 rfl,
    (h.2.2.2.2.2.2 "custom" (.strV "assigned")
      (by simp [exDecoratorOptions])).2 (by decide)⟩

end Remirror
